import Mathlib

/-!
Verification of the incremental CSV sync & merge core of `streamlit_app.py`.

The Python source is shallowly embedded: the remote listing, change
detection, forced-refresh ("latest per machine") selection, per-file fetch,
and the cache merge of `fetch_data` are modelled as executable Lean
functions.  DataFrames are reduced to the facets the sync logic inspects:
presence of the mandatory `Date`/`Heure` columns and an abstract list of
row payloads; the persisted parquet snapshot distinguishes the degenerate
column-less empty frame (`pd.DataFrame()`) from a frame carrying the
`source_file` column, because the merge step crashes (KeyError) on the
former.  An uncaught exception is modelled as `none`.
-/

/-- Whitespace characters removed by Python's `str.strip()` (ASCII part). -/
def isPyWs (c : Char) : Bool :=
  c = ' ' || c = '\t' || c = '\n' || c = '\r' || c = '\x0b' || c = '\x0c'

/-- Python `str.strip()`: drop leading and trailing whitespace. -/
def pstrip (s : String) : String :=
  String.mk (((s.data.dropWhile isPyWs).reverse.dropWhile isPyWs).reverse)

/-- A file entry of the remote listing (`name`, `size`,
`lastModifiedDateTime`, `@microsoft.graph.downloadUrl`). -/
structure RemoteFile where
  name : String
  size : Nat
  lastModifiedDateTime : String
  downloadUrl : String
deriving DecidableEq, Repr

/-- `file_hash(f) = f"{f['size']}_{f['lastModifiedDateTime']}"`. -/
def file_hash (f : RemoteFile) : String :=
  toString f.size ++ "_" ++ f.lastModifiedDateTime

/-- One response of the paginated listing endpoint: a page of files plus
whether an `@odata.nextLink` is present, or a non-success response. -/
inductive Page where
  | ok (files : List RemoteFile) (next : Bool)
  | err
deriving DecidableEq, Repr

/-- `get_all_files()`: follow pagination, `break` (keeping what was
accumulated) on a non-200 response. -/
def get_all_files : List Page → List RemoteFile
  | [] => []
  | Page.err :: _ => []
  | Page.ok fs true :: rest => fs ++ get_all_files rest
  | Page.ok fs false :: _ => fs

/-- Match `\d{4}-\d{2}-\d{2}` at the head of the character list. -/
def matchDateAt : List Char → Option String
  | a :: b :: c :: d :: e :: f :: g :: h :: i :: j :: _ =>
      if a.isDigit && b.isDigit && c.isDigit && d.isDigit && e = '-' &&
         f.isDigit && g.isDigit && h = '-' && i.isDigit && j.isDigit then
        some (String.mk [a, b, c, d, e, f, g, h, i, j])
      else none
  | _ => none

/-- Lazy search for the date pattern (the `.*?(\d{4}-\d{2}-\d{2})` tail of
the regex): earliest occurrence, never crossing a newline (`.` does not
match `\n`). -/
def findDate : List Char → Option String
  | [] => none
  | c :: rest =>
      match matchDateAt (c :: rest) with
      | some d => some d
      | none => if c = '\n' then none else findDate rest

/-- Match `(Presse\d)` at the head of the character list, returning the
captured machine token and the remaining characters. -/
def matchPresseAt : List Char → Option (String × List Char)
  | 'P' :: 'r' :: 'e' :: 's' :: 's' :: 'e' :: d :: rest =>
      if d.isDigit then some (String.mk ['P', 'r', 'e', 's', 's', 'e', d], rest)
      else none
  | _ => none

/-- `re.search(r'(Presse\d).*?(\d{4}-\d{2}-\d{2})', s)`: leftmost start
where the machine token matches and a date occurrence follows. -/
def pySearch : List Char → Option (String × String)
  | [] => none
  | c :: rest =>
      match matchPresseAt (c :: rest) with
      | some (machine, after) =>
          match findDate after with
          | some d => some (machine, d)
          | none => pySearch rest
      | none => pySearch rest

/-- A calendar date as produced by `datetime.strptime(_, "%Y-%m-%d").date()`. -/
structure PDate where
  y : Nat
  m : Nat
  d : Nat
deriving DecidableEq, Repr

/-- Gregorian leap year. -/
def isLeap (y : Nat) : Bool := y % 4 = 0 && (y % 100 ≠ 0 || y % 400 = 0)

/-- Days in a month of the proleptic Gregorian calendar. -/
def daysInMonth (y m : Nat) : Nat :=
  if m = 2 then (if isLeap y then 29 else 28)
  else if m = 4 || m = 6 || m = 9 || m = 11 then 30
  else 31

/-- Numeric value of a decimal digit character. -/
def digitVal (c : Char) : Nat := c.toNat - '0'.toNat

/-- `datetime.strptime(s, "%Y-%m-%d").date()`: parse and validate, `none`
models the `ValueError` branch (caught by the bare `except`). -/
def strptimeDate (s : String) : Option PDate :=
  match s.data with
  | [a, b, c, d, '-', e, f, '-', g, h] =>
      if a.isDigit && b.isDigit && c.isDigit && d.isDigit &&
         e.isDigit && f.isDigit && g.isDigit && h.isDigit then
        let y := ((digitVal a * 10 + digitVal b) * 10 + digitVal c) * 10 + digitVal d
        let mo := digitVal e * 10 + digitVal f
        let dy := digitVal g * 10 + digitVal h
        if 1 ≤ y && 1 ≤ mo && mo ≤ 12 && 1 ≤ dy && dy ≤ daysInMonth y mo then
          some ⟨y, mo, dy⟩
        else none
      else none
  | _ => none

/-- Strict comparison of `datetime.date` values (`dt > latest[machine][0]`
is `dateLt (latest date) dt`). -/
def dateLt (a b : PDate) : Bool :=
  a.y < b.y || (a.y = b.y && (a.m < b.m || (a.m = b.m && a.d < b.d)))

/-- The per-file body of `latest_per_machine`: strip the name, run the
regex, parse the captured date; `none` when the regex does not match or
`strptime` raises. -/
def extractMachineDate (f : RemoteFile) : Option (String × PDate) :=
  match pySearch (pstrip f.name).data with
  | none => none
  | some (machine, datestr) =>
      match strptimeDate datestr with
      | none => none
      | some dt => some (machine, dt)

/-- Association-list lookup, modelling Python `dict` access. -/
def alookup (k : String) : List (String × α) → Option α
  | [] => none
  | (k₂, v) :: rest => if k₂ = k then some v else alookup k rest

/-- In-place update of a dict entry: the entry whose key is `k` is replaced
by `(k, v)`, others are untouched (Python dict assignment keeps insertion
position). -/
def setKey (k : String) (v : β) (p : String × β) : String × β :=
  if p.1 = k then (k, v) else p

/-- `latest[machine] = (dt, f)` guarded by
`machine not in latest or dt > latest[machine][0]` (insertion-ordered
dict update: replace in place, or append a fresh key). -/
def updLatest (latest : List (String × PDate × RemoteFile)) (machine : String)
    (dt : PDate) (f : RemoteFile) : List (String × PDate × RemoteFile) :=
  match alookup machine latest with
  | none => latest ++ [(machine, dt, f)]
  | some (dt₀, _) =>
      if dateLt dt₀ dt then latest.map (setKey machine (dt, f))
      else latest

/-- The loop of `latest_per_machine`. -/
def latestAux : List RemoteFile → List (String × PDate × RemoteFile) →
    List (String × PDate × RemoteFile)
  | [], acc => acc
  | f :: rest, acc =>
      match extractMachineDate f with
      | none => latestAux rest acc
      | some (machine, dt) => latestAux rest (updLatest acc machine dt f)

/-- `latest_per_machine(files)`: machine → file with the greatest embedded
date (first-seen wins on ties). -/
def latest_per_machine (files : List RemoteFile) : List (String × RemoteFile) :=
  (latestAux files []).map (fun p => (p.1, p.2.2))

/-- Membership test on a list of strings (Python `in`). -/
def memB (s : String) : List String → Bool
  | [] => false
  | t :: rest => if t = s then true else memB s rest

/-- Python dict assignment `d[k] = v`: replace in place or append. -/
def dictInsert (d : List (String × String)) (k v : String) :
    List (String × String) :=
  match alookup k d with
  | some _ => d.map (setKey k v)
  | none => d ++ [(k, v)]

/-- The facets of a parsed CSV (`pd.read_csv` result) that `fetch_data`
inspects: presence of the mandatory columns and the row payloads. -/
structure Frame where
  hasDate : Bool
  hasHeure : Bool
  rows : List String
deriving DecidableEq, Repr

/-- A row of the cached dataset: its `source_file` tag and its payload. -/
structure CRow where
  source_file : String
  payload : String
deriving DecidableEq, Repr

/-- The persisted parquet snapshot: either the degenerate column-less empty
frame written by `pd.DataFrame()` (no `source_file` column), or a frame of
tagged rows. -/
inductive CacheFrame where
  | noCols
  | tagged (rows : List CRow)
deriving DecidableEq, Repr

/-- Rows of a cache frame. -/
def frameRows : CacheFrame → List CRow
  | CacheFrame.noCols => []
  | CacheFrame.tagged rs => rs

/-- The external world of one run: the paginated listing responses and the
download-and-parse outcome per download URL (`none` models a fetch or
parse exception caught by the per-file `except: continue`). -/
structure Env where
  pages : List Page
  download : String → Option Frame

/-- The on-disk state: `file_index.json` and `combined_data.parquet`
(`none` when the file does not exist). -/
structure Disk where
  index : Option (List (String × String))
  cache : Option CacheFrame
deriving DecidableEq

/-- `name = f["name"].strip()`. -/
def strippedName (f : RemoteFile) : String := pstrip f.name

/-- Python `str.lower()` (ASCII case mapping). -/
def pyLower (s : String) : String := String.mk (s.data.map Char.toLower)

/-- `f["name"].lower().strip().endswith(".csv")`. -/
def isCsv (f : RemoteFile) : Bool :=
  List.isSuffixOf ".csv".data (pstrip (pyLower f.name)).data

/-- The filtered CSV listing of a run. -/
def csvsOf (env : Env) : List RemoteFile :=
  (get_all_files env.pages).filter isCsv

/-- `force_names = [v["name"].strip() for v in latest_files.values()]`. -/
def forceNames (env : Env) : List String :=
  (latest_per_machine (csvsOf env)).map (fun p => pstrip p.2.name)

/-- `changed = name not in old_index or file_hash(f) != old_index[name]`. -/
def changed (old_index : List (String × String)) (f : RemoteFile) : Bool :=
  match alookup (strippedName f) old_index with
  | none => true
  | some h => h != file_hash f

/-- The per-file download-and-validate step: `none` when the fetch/parse
raised or a mandatory column is missing (nothing appended to `new_data`),
`some` the rows tagged with `source_file = name` otherwise. -/
def batchOpt (env : Env) (f : RemoteFile) : Option (List CRow) :=
  match env.download f.downloadUrl with
  | none => none
  | some fr =>
      if fr.hasDate && fr.hasHeure then
        some (fr.rows.map (fun p => ⟨strippedName f, p⟩))
      else none

/-- The files for which the loop enters the fetch branch
(`if changed or is_latest`). -/
def fetchedFiles (env : Env) (old_index : List (String × String)) :
    List RemoteFile :=
  (csvsOf env).filter
    (fun f => changed old_index f || memB (strippedName f) (forceNames env))

/-- `new_data`: the list of accepted per-file DataFrames, in listing order. -/
def newBatches (env : Env) (old_index : List (String × String)) :
    List (List CRow) :=
  (fetchedFiles env old_index).filterMap (batchOpt env)

/-- `new_index` after the loop: every listed CSV's current fingerprint. -/
def newIndex (env : Env) : List (String × String) :=
  (csvsOf env).foldl
    (fun d f => dictInsert d (strippedName f) (file_hash f)) []

/-- `load_index()`: `{}` when the index file is absent. -/
def load_index (disk : Disk) : List (String × String) := disk.index.getD []

/-- The merge step of `fetch_data`: filter the prior snapshot by
`~isin(force_names)` and concatenate, or concatenate the new batches alone
(`pd.DataFrame()` when there are none).  `none` models the KeyError raised
by `base["source_file"]` on a column-less prior snapshot. -/
def mergeCache (cache : Option CacheFrame) (force : List String)
    (batches : List (List CRow)) : Option CacheFrame :=
  match cache with
  | some CacheFrame.noCols => none
  | some (CacheFrame.tagged base) =>
      some (CacheFrame.tagged
        (base.filter (fun r => !(memB r.source_file force)) ++ batches.flatten))
  | none =>
      some (if batches.isEmpty then CacheFrame.noCols
            else CacheFrame.tagged batches.flatten)

/-- `fetch_data()`: one full run.  Returns the updated disk state and the
combined dataset, or `none` when the merge raised (in which case nothing
was written, since both writes happen after the merge). -/
def fetch_data (env : Env) (disk : Disk) : Option (Disk × CacheFrame) :=
  match mergeCache disk.cache (forceNames env)
      (newBatches env (load_index disk)) with
  | none => none
  | some combined =>
      some ({ index := some (newIndex env), cache := some combined }, combined)

/-! ### Helper lemmas about the association-list and membership primitives -/

theorem memB_iff (s : String) (l : List String) : memB s l = true ↔ s ∈ l := by
  induction l with
  | nil => simp [memB]
  | cons t rest ih =>
      by_cases h : t = s
      · subst h; simp [memB]
      · rw [memB, if_neg h, ih, List.mem_cons]
        exact ⟨Or.inr, fun hc => hc.elim (fun hs => absurd hs.symm h) id⟩

theorem setKey_pair (k : String) (v : β) (k₂ : String) (w : β) :
    setKey k v (k₂, w) = if k₂ = k then (k, v) else (k₂, w) := rfl

theorem alookup_cons (k k₂ : String) (v : α) (rest : List (String × α)) :
    alookup k ((k₂, v) :: rest) = if k₂ = k then some v else alookup k rest :=
  rfl

theorem alookup_append (k : String) (l₁ l₂ : List (String × α)) :
    alookup k (l₁ ++ l₂) = (alookup k l₁).or (alookup k l₂) := by
  induction l₁ with
  | nil => rfl
  | cons p rest ih =>
      obtain ⟨k₂, v⟩ := p
      by_cases h : k₂ = k
      · rw [List.cons_append, alookup_cons, if_pos h, alookup_cons, if_pos h]
        rfl
      · rw [List.cons_append, alookup_cons, if_neg h, alookup_cons, if_neg h, ih]

theorem alookup_eq_none_iff (k : String) (l : List (String × α)) :
    alookup k l = none ↔ ∀ p ∈ l, p.1 ≠ k := by
  induction l with
  | nil => simp [alookup]
  | cons p rest ih =>
      obtain ⟨k₂, v⟩ := p
      by_cases h : k₂ = k
      · subst h
        rw [alookup_cons, if_pos rfl]
        simp
      · rw [alookup_cons, if_neg h, ih]
        simp only [List.mem_cons]
        constructor
        · rintro hr p (rfl | hp)
          · exact h
          · exact hr p hp
        · intro hr p hp
          exact hr p (Or.inr hp)

theorem alookup_mem {k : String} {l : List (String × α)} {v : α}
    (h : alookup k l = some v) : (k, v) ∈ l := by
  induction l with
  | nil => simp [alookup] at h
  | cons p rest ih =>
      obtain ⟨k₂, w⟩ := p
      by_cases hk : k₂ = k
      · subst hk
        rw [alookup_cons, if_pos rfl] at h
        obtain rfl : w = v := by injection h
        exact List.mem_cons_self _ _
      · rw [alookup_cons, if_neg hk] at h
        exact List.mem_cons_of_mem _ (ih h)

theorem alookup_map_set_self (k : String) (v : β) (l : List (String × β)) :
    alookup k (l.map (setKey k v)) = (alookup k l).map (fun _ => v) := by
  induction l with
  | nil => rfl
  | cons p rest ih =>
      obtain ⟨k₂, w⟩ := p
      by_cases h : k₂ = k
      · rw [List.map_cons, setKey_pair, if_pos h, alookup_cons, if_pos rfl,
          alookup_cons, if_pos h]
        rfl
      · rw [List.map_cons, setKey_pair, if_neg h, alookup_cons, if_neg h,
          alookup_cons, if_neg h, ih]

theorem alookup_map_set_ne {k' k : String} (v : β) (l : List (String × β))
    (h : k' ≠ k) :
    alookup k' (l.map (setKey k v)) = alookup k' l := by
  induction l with
  | nil => rfl
  | cons p rest ih =>
      obtain ⟨k₂, w⟩ := p
      by_cases h₂ : k₂ = k
      · have hne : ¬k = k' := fun hc => h hc.symm
        rw [List.map_cons, setKey_pair, if_pos h₂, alookup_cons, if_neg hne,
          alookup_cons, if_neg (h₂ ▸ hne), ih]
      · rw [List.map_cons, setKey_pair, if_neg h₂, alookup_cons, alookup_cons,
          ih]

theorem alookup_dictInsert_self (d : List (String × String)) (k v : String) :
    alookup k (dictInsert d k v) = some v := by
  unfold dictInsert
  cases h : alookup k d with
  | none =>
      rw [alookup_append, h, Option.none_or, alookup_cons, if_pos rfl]
  | some w =>
      rw [alookup_map_set_self, h]
      rfl

theorem alookup_dictInsert_ne (d : List (String × String)) {k' k : String}
    (v : String) (h : k' ≠ k) :
    alookup k' (dictInsert d k v) = alookup k' d := by
  unfold dictInsert
  cases hd : alookup k d with
  | none =>
      have hsingle : alookup k' [(k, v)] = none := by
        rw [alookup_cons, if_neg (fun hc => h hc.symm)]
        rfl
      rw [alookup_append, hsingle]
      cases alookup k' d <;> rfl
  | some w => rw [alookup_map_set_ne v d h]

/-! ### Lemmas about the rebuilt file index and the per-file batches -/

theorem alookup_foldl_dictInsert_of_ne (k : String) :
    ∀ (l : List RemoteFile) (acc : List (String × String)),
      (∀ f ∈ l, strippedName f ≠ k) →
      alookup k (l.foldl
        (fun d f => dictInsert d (strippedName f) (file_hash f)) acc) =
      alookup k acc := by
  intro l
  induction l with
  | nil => intro acc _; rfl
  | cons g rest ih =>
      intro acc hne
      rw [List.foldl_cons,
        ih _ (fun f hf => hne f (List.mem_cons_of_mem _ hf)),
        alookup_dictInsert_ne _ _
          (fun hc => hne g (List.mem_cons_self _ _) hc.symm)]

theorem alookup_foldl_dictInsert_self {f : RemoteFile} :
    ∀ (l : List RemoteFile) (acc : List (String × String)),
      f ∈ l → (l.map strippedName).Nodup →
      alookup (strippedName f) (l.foldl
        (fun d g => dictInsert d (strippedName g) (file_hash g)) acc) =
      some (file_hash f) := by
  intro l
  induction l with
  | nil => intro acc hmem _; exact absurd hmem (List.not_mem_nil f)
  | cons g rest ih =>
      intro acc hmem hnd
      rw [List.map_cons, List.nodup_cons] at hnd
      rcases List.mem_cons.mp hmem with rfl | hmem₂
      · rw [List.foldl_cons,
          alookup_foldl_dictInsert_of_ne _ rest _
            (fun g₂ hg₂ hc => hnd.1 (by
              rw [← hc]
              exact List.mem_map_of_mem strippedName hg₂)),
          alookup_dictInsert_self]
      · exact List.foldl_cons _ _ ▸ ih _ hmem₂ hnd.2

theorem newIndex_lookup_self {env : Env} {f : RemoteFile}
    (hf : f ∈ csvsOf env) (hnd : ((csvsOf env).map strippedName).Nodup) :
    alookup (strippedName f) (newIndex env) = some (file_hash f) :=
  alookup_foldl_dictInsert_self (csvsOf env) [] hf hnd

theorem changed_newIndex {env : Env} {f : RemoteFile}
    (hf : f ∈ csvsOf env) (hnd : ((csvsOf env).map strippedName).Nodup) :
    changed (newIndex env) f = false := by
  unfold changed
  rw [newIndex_lookup_self hf hnd]
  exact bne_self_eq_false _

theorem batchOpt_source {env : Env} {f : RemoteFile} {b : List CRow}
    (h : batchOpt env f = some b) :
    ∀ r ∈ b, r.source_file = strippedName f := by
  unfold batchOpt at h
  split at h
  · cases h
  · split at h
    · obtain rfl : _ = b := by injection h
      intro r hr
      obtain ⟨p, _, rfl⟩ := List.mem_map.mp hr
      rfl
    · cases h

/-! ### C4: fingerprint construction and change classification -/

/-- Claim C4: for every remote file the fingerprint concatenates its size
and its last-modified timestamp, and a file is classified as changed
exactly when its name is absent from the prior FileIndex or the stored
fingerprint differs from the newly computed one. -/
theorem claim_C4 (idx : List (String × String)) (f : RemoteFile) :
    file_hash f = toString f.size ++ "_" ++ f.lastModifiedDateTime ∧
    (changed idx f = true ↔
      (alookup (strippedName f) idx = none ∨
       ∃ h, alookup (strippedName f) idx = some h ∧ h ≠ file_hash f)) := by
  refine ⟨rfl, ?_⟩
  unfold changed
  cases hl : alookup (strippedName f) idx with
  | none => simp
  | some h => simp [bne_iff_ne]

/-! ### C1: fetch policy (changed-by-fingerprint OR forced-refresh) -/

/-- Claim C1: a CSV file of the listing is downloaded and parsed in a run
if and only if it is changed-by-fingerprint or its stripped name is in the
forced-refresh set; a file that is neither is skipped. -/
theorem claim_C1 (env : Env) (idx : List (String × String)) (f : RemoteFile)
    (hf : f ∈ csvsOf env) :
    f ∈ fetchedFiles env idx ↔
      (changed idx f = true ∨ strippedName f ∈ forceNames env) := by
  unfold fetchedFiles
  rw [List.mem_filter]
  constructor
  · intro h
    rcases Bool.or_eq_true_iff.mp h.2 with hc | hm
    · exact Or.inl hc
    · exact Or.inr ((memB_iff _ _).mp hm)
  · intro h
    refine ⟨hf, Bool.or_eq_true_iff.mpr ?_⟩
    rcases h with hc | hm
    · exact Or.inl hc
    · exact Or.inr ((memB_iff _ _).mpr hm)

/-- Input for the C1 witness: a changed, non-forced CSV. -/
def c1File : RemoteFile := RemoteFile.mk "a.csv" 2 "t2" "u"

/-- Environment for the C1 witness. -/
def c1Env : Env := Env.mk [Page.ok [c1File] false] (fun _ => none)

/-- Witness for C1 at a concrete input: the file is listed, is
changed-by-fingerprint, and is fetched. -/
theorem claim_C1_witness :
    (c1File ∈ fetchedFiles c1Env [("a.csv", "1_t1")] ↔
      (changed [("a.csv", "1_t1")] c1File = true ∨
       strippedName c1File ∈ forceNames c1Env)) ∧
    changed [("a.csv", "1_t1")] c1File = true ∧
    c1File ∈ fetchedFiles c1Env [("a.csv", "1_t1")] :=
  ⟨claim_C1 c1Env [("a.csv", "1_t1")] c1File (by decide),
   by decide, by decide⟩

/-! ### C6: behaviour of the listing on a non-success response -/

/-- Files of one listing page. -/
def pageFiles : Page → List RemoteFile
  | Page.ok fs _ => fs
  | Page.err => []

/-- Counterexample input for C6: the second listing request fails after a
first successful page. -/
def c6File : RemoteFile := RemoteFile.mk "a.csv" 1 "t" "u"

/-- Counterexample for claim C6: when a listing request fails in the middle
of pagination, `get_all_files` returns the files accumulated so far, which
is NOT the empty set — refuting "the listing operation yields the empty set
of files" for every failing run. -/
theorem claim_C6_counterexample :
    get_all_files [Page.ok [c6File] true, Page.err] = [c6File] ∧
    ([c6File] : List RemoteFile) ≠ [] := by
  exact ⟨rfl, by decide⟩

/-- Claim C6 (amended): when a listing request does not return success, the
listing yields exactly the files of the successfully fetched pages before
the failure (the empty set when the first request fails) and never raises. -/
theorem claim_C6 (pre post : List Page)
    (h : ∀ q ∈ pre, ∃ fs, q = Page.ok fs true) :
    get_all_files (pre ++ Page.err :: post) = (pre.map pageFiles).flatten := by
  induction pre with
  | nil => rfl
  | cons q rest ih =>
      obtain ⟨fs, rfl⟩ := h q (List.mem_cons_self _ _)
      rw [List.cons_append]
      show fs ++ get_all_files (rest ++ Page.err :: post) = _
      rw [ih (fun q₂ hq₂ => h q₂ (List.mem_cons_of_mem _ hq₂)),
        List.map_cons, List.flatten_cons]
      rfl

/-- Witness for C6 at a concrete input: one successful page followed by a
failing request yields exactly that page's files. -/
theorem claim_C6_witness :
    get_all_files ([Page.ok [c6File] true] ++ Page.err :: []) =
      ([Page.ok [c6File] true].map pageFiles).flatten :=
  claim_C6 [Page.ok [c6File] true] []
    (fun q hq => ⟨[c6File], by
      rw [List.mem_singleton] at hq
      rw [hq]⟩)

/-! ### C2: at most one ingested version per source_file after a merge -/

/-- Counterexample input for C2: a changed but non-forced file. -/
def c2File : RemoteFile := RemoteFile.mk "a.csv" 2 "t2" "u"

/-- Download table for the C2 counterexample. -/
def c2Dl : String → Option Frame :=
  fun u => if u = "u" then some (Frame.mk true true ["v2"]) else none

/-- Environment for the C2 counterexample. -/
def c2Env : Env := Env.mk [Page.ok [c2File] false] c2Dl

/-- Prior disk state for the C2 counterexample: `a.csv` was cached under an
older fingerprint. -/
def c2Disk : Disk :=
  Disk.mk (some [("a.csv", "1_t1")])
    (some (CacheFrame.tagged [CRow.mk "a.csv" "v1"]))

/-- Counterexample for claim C2: `a.csv` is changed-by-fingerprint but not
in the forced-refresh set, so the merge appends its freshly fetched rows
WITHOUT removing the previously cached ones — after the merge the dataset
holds two distinct rows for the same `source_file`, one per version. -/
theorem claim_C2_counterexample :
    (fetch_data c2Env c2Disk).map (fun p => frameRows p.2) =
      some [CRow.mk "a.csv" "v1", CRow.mk "a.csv" "v2"] ∧
    (CRow.mk "a.csv" "v1").source_file = (CRow.mk "a.csv" "v2").source_file ∧
    CRow.mk "a.csv" "v1" ≠ CRow.mk "a.csv" "v2" :=
  ⟨by decide, rfl, by decide⟩

/-- Claim C2 (amended): the removal-then-append discipline holds only for
the forced-refresh set — after a merge, every row whose `source_file` is in
the forced-refresh set comes from the newly fetched batches (the prior
version was removed); rows of re-ingested files outside that set are
appended alongside their previously cached versions. -/
theorem claim_C2 (env : Env) (disk : Disk) (d₂ : Disk) (c : CacheFrame)
    (hrun : fetch_data env disk = some (d₂, c)) :
    ∀ r ∈ frameRows c, r.source_file ∈ forceNames env →
      r ∈ (newBatches env (load_index disk)).flatten := by
  intro r hr hforce
  unfold fetch_data at hrun
  cases hm : mergeCache disk.cache (forceNames env)
      (newBatches env (load_index disk)) with
  | none => rw [hm] at hrun; cases hrun
  | some combined =>
      rw [hm, Option.some.injEq, Prod.mk.injEq] at hrun
      obtain ⟨-, rfl⟩ := hrun
      unfold mergeCache at hm
      split at hm
      · cases hm
      · rw [Option.some.injEq] at hm
        subst hm
        rcases List.mem_append.mp hr with hbase | hnew
        · have hp := (List.mem_filter.mp hbase).2
          rw [(memB_iff _ _).mpr hforce] at hp
          cases hp
        · exact hnew
      · rw [Option.some.injEq] at hm
        subst hm
        by_cases he : (newBatches env (load_index disk)).isEmpty = true
        · rw [if_pos he] at hr
          cases hr
        · rw [if_neg he] at hr
          exact hr

/-- Witness input for C2: a forced (latest-per-machine) file whose prior
rows are replaced. -/
def c2wFile : RemoteFile := RemoteFile.mk "Presse1_2024-01-05.csv" 2 "t2" "u2"

/-- Download table for the C2 witness. -/
def c2wDl : String → Option Frame :=
  fun u => if u = "u2" then some (Frame.mk true true ["new"]) else none

/-- Environment for the C2 witness. -/
def c2wEnv : Env := Env.mk [Page.ok [c2wFile] false] c2wDl

/-- Prior disk state for the C2 witness: the forced file is cached with an
unchanged fingerprint. -/
def c2wDisk : Disk :=
  Disk.mk (some [("Presse1_2024-01-05.csv", "2_t2")])
    (some (CacheFrame.tagged [CRow.mk "Presse1_2024-01-05.csv" "old"]))

/-- The newly fetched row of the C2 witness. -/
def c2wRow : CRow := CRow.mk "Presse1_2024-01-05.csv" "new"

/-- Updated disk state after the C2 witness run. -/
def c2wD2 : Disk :=
  Disk.mk (some [("Presse1_2024-01-05.csv", "2_t2")])
    (some (CacheFrame.tagged [c2wRow]))

/-- Witness for the amended C2 at a concrete input: the forced file's only
surviving row comes from the fresh fetch. -/
theorem claim_C2_witness :
    c2wRow ∈ (newBatches c2wEnv (load_index c2wDisk)).flatten :=
  claim_C2 c2wEnv c2wDisk c2wD2 (CacheFrame.tagged [c2wRow]) (by decide)
    c2wRow (by decide) (by decide)

/-! ### C5: failed per-file fetches and the persisted FileIndex -/

/-- Counterexample input for C5: a CSV whose download fails. -/
def c5File : RemoteFile := RemoteFile.mk "b.csv" 1 "t" "u"

/-- Environment for the C5 counterexample: every download fails. -/
def c5Env : Env := Env.mk [Page.ok [c5File] false] (fun _ => none)

/-- Counterexample for claim C5: the download of `b.csv` fails, yet the
FileIndex persisted at the end of the run DOES record its new fingerprint
(`new_index[name] = file_hash(f)` runs before the fetch is attempted), so
on the next invocation the file is not classified as changed and is not
re-fetched. -/
theorem claim_C5_counterexample :
    (fetch_data c5Env (Disk.mk none none)).map (fun p => p.1.index) =
      some (some [("b.csv", "1_t")]) ∧
    changed [("b.csv", "1_t")] c5File = false ∧
    fetchedFiles c5Env [("b.csv", "1_t")] = [] :=
  ⟨by decide, by decide, by decide⟩

/-- Claim C5 (amended): the FileIndex written at the end of a run records
the new fingerprint of every listed CSV, including files whose fetch or
parse failed; consequently such a file is NOT classified as changed on the
next invocation (it is re-fetched only if forced).  No in-run retry is
performed: a failed file contributes no batch in the current run. -/
theorem claim_C5 (env : Env) (f : RemoteFile)
    (hf : f ∈ csvsOf env)
    (hnd : ((csvsOf env).map strippedName).Nodup)
    (hfail : env.download f.downloadUrl = none) :
    alookup (strippedName f) (newIndex env) = some (file_hash f) ∧
    changed (newIndex env) f = false ∧
    batchOpt env f = none := by
  refine ⟨newIndex_lookup_self hf hnd, changed_newIndex hf hnd, ?_⟩
  unfold batchOpt
  rw [hfail]

/-- Witness for the amended C5 at a concrete input. -/
theorem claim_C5_witness :
    alookup (strippedName c5File) (newIndex c5Env) = some (file_hash c5File) ∧
    changed (newIndex c5Env) c5File = false ∧
    batchOpt c5Env c5File = none :=
  claim_C5 c5Env c5File (by decide) (by decide) rfl

/-! ### Equation lemmas for the merge step -/

theorem mergeCache_noCols (force : List String) (batches : List (List CRow)) :
    mergeCache (some CacheFrame.noCols) force batches = none := rfl

theorem mergeCache_tagged (base : List CRow) (force : List String)
    (batches : List (List CRow)) :
    mergeCache (some (CacheFrame.tagged base)) force batches =
      some (CacheFrame.tagged
        (base.filter (fun r => !(memB r.source_file force)) ++
          batches.flatten)) := rfl

theorem mergeCache_absent (force : List String) (batches : List (List CRow)) :
    mergeCache none force batches =
      some (if batches.isEmpty then CacheFrame.noCols
            else CacheFrame.tagged batches.flatten) := rfl

/-! ### C9: listing failure with an existing non-empty cache -/

/-- Claim C9: when the listing call fails (non-success on the first
request) while a non-empty tagged cache exists on disk, the run returns the
cached dataset unchanged instead of erroring out. -/
theorem claim_C9 (env : Env) (disk : Disk) (base : List CRow)
    (rest : List Page)
    (hp : env.pages = Page.err :: rest)
    (hc : disk.cache = some (CacheFrame.tagged base))
    (hne : base ≠ []) :
    fetch_data env disk =
      some (Disk.mk (some []) (some (CacheFrame.tagged base)),
        CacheFrame.tagged base) := by
  have hfiles : get_all_files env.pages = [] := by rw [hp]; rfl
  have hcs : csvsOf env = [] := by unfold csvsOf; rw [hfiles]; rfl
  have hforce : forceNames env = [] := by
    unfold forceNames latest_per_machine
    rw [hcs]
    rfl
  have hidx : newIndex env = [] := by unfold newIndex; rw [hcs]; rfl
  have hfetched : fetchedFiles env (load_index disk) = [] := by
    unfold fetchedFiles; rw [hcs]; rfl
  have hb : newBatches env (load_index disk) = [] := by
    unfold newBatches; rw [hfetched]; rfl
  unfold fetch_data
  rw [hc, hforce, hb, mergeCache_tagged, hidx]
  have hfilter : List.filter (fun r => !(memB r.source_file [])) base = base :=
    List.filter_eq_self.mpr (fun a _ => rfl)
  have hbase : List.filter (fun r => !(memB r.source_file [])) base ++
      List.flatten ([] : List (List CRow)) = base := by
    rw [List.flatten_nil, List.append_nil, hfilter]
  rw [hbase]

/-- Inputs for the C9 witness. -/
def c9Env : Env := Env.mk [Page.err] (fun _ => none)

/-- Cached rows for the C9 witness. -/
def c9Base : List CRow := [CRow.mk "x.csv" "p"]

/-- Disk state for the C9 witness. -/
def c9Disk : Disk :=
  Disk.mk (some [("x.csv", "h")]) (some (CacheFrame.tagged c9Base))

/-- Witness for C9 at a concrete input: a failing listing with a non-empty
cache returns the cache unchanged. -/
theorem claim_C9_witness :
    fetch_data c9Env c9Disk =
      some (Disk.mk (some []) (some (CacheFrame.tagged c9Base)),
        CacheFrame.tagged c9Base) :=
  claim_C9 c9Env c9Disk c9Base [] rfl rfl (by decide)

/-! ### C10: empty listing overwrites FileIndex and cache snapshot -/

/-- Counterexample environment for C10: a successful but empty listing. -/
def c10Env : Env := Env.mk [Page.ok [] false] (fun _ => none)

/-- Counterexample disk state for C10: the degenerate column-less empty
snapshot written by a previous zero-data run. -/
def c10Disk : Disk := Disk.mk (some [("x.csv", "h")]) (some CacheFrame.noCols)

/-- Counterexample for claim C10: a run whose listing yields zero CSV files
does NOT always overwrite the FileIndex — when the cache snapshot on disk
is the degenerate column-less empty frame, the merge raises (KeyError on
`base["source_file"]`) before anything is written, so the old FileIndex
survives. -/
theorem claim_C10_counterexample :
    csvsOf c10Env = [] ∧ fetch_data c10Env c10Disk = none :=
  ⟨rfl, rfl⟩

/-- Claim C10 (amended): on a run whose listing yields zero CSV files,
provided the prior cache snapshot is absent or carries the `source_file`
column, `fetch_data` overwrites the FileIndex with the empty mapping and
rewrites the cache snapshot, so on the next run every remote CSV file is
classified as changed and is fetched again. -/
theorem claim_C10 (env : Env) (disk : Disk)
    (hcs : csvsOf env = [])
    (hok : disk.cache = none ∨
      ∃ base, disk.cache = some (CacheFrame.tagged base)) :
    ∃ d₂ c, fetch_data env disk = some (d₂, c) ∧
      d₂.index = some [] ∧ d₂.cache = some c ∧
      (∀ (env₂ : Env) (f : RemoteFile), f ∈ csvsOf env₂ →
        changed (load_index d₂) f = true ∧
        f ∈ fetchedFiles env₂ (load_index d₂)) := by
  have hidx : newIndex env = [] := by unfold newIndex; rw [hcs]; rfl
  have hfetched : fetchedFiles env (load_index disk) = [] := by
    unfold fetchedFiles; rw [hcs]; rfl
  have hb : newBatches env (load_index disk) = [] := by
    unfold newBatches; rw [hfetched]; rfl
  have hnext : ∀ (env₂ : Env) (f : RemoteFile), f ∈ csvsOf env₂ →
      changed ([] : List (String × String)) f = true ∧
      f ∈ fetchedFiles env₂ ([] : List (String × String)) := by
    intro env₂ f hf
    have hch : changed ([] : List (String × String)) f = true := rfl
    refine ⟨hch, List.mem_filter.mpr ⟨hf, ?_⟩⟩
    rw [hch]
    rfl
  rcases hok with hnone | ⟨base, hbase⟩
  · refine ⟨Disk.mk (some []) (some CacheFrame.noCols), CacheFrame.noCols,
      ?_, rfl, rfl, fun env₂ f hf => hnext env₂ f hf⟩
    unfold fetch_data
    rw [hnone, hb, mergeCache_absent, hidx]
    rfl
  · refine ⟨Disk.mk (some [])
      (some (CacheFrame.tagged
        (base.filter (fun r => !(memB r.source_file (forceNames env))) ++
          List.flatten ([] : List (List CRow))))),
      CacheFrame.tagged
        (base.filter (fun r => !(memB r.source_file (forceNames env))) ++
          List.flatten ([] : List (List CRow))),
      ?_, rfl, rfl, fun env₂ f hf => hnext env₂ f hf⟩
    unfold fetch_data
    rw [hbase, hb, mergeCache_tagged, hidx]

/-- Witness environment for the amended C10: the first listing request
fails, so the listing is empty. -/
def c10wEnv : Env := Env.mk [Page.err] (fun _ => none)

/-- Witness disk state for the amended C10. -/
def c10wDisk : Disk := Disk.mk (some [("y.csv", "h")]) none

/-- Witness for the amended C10 at a concrete input. -/
theorem claim_C10_witness :
    ∃ d₂ c, fetch_data c10wEnv c10wDisk = some (d₂, c) ∧
      d₂.index = some [] ∧ d₂.cache = some c ∧
      (∀ (env₂ : Env) (f : RemoteFile), f ∈ csvsOf env₂ →
        changed (load_index d₂) f = true ∧
        f ∈ fetchedFiles env₂ (load_index d₂)) :=
  claim_C10 c10wEnv c10wDisk (by decide) (Or.inl rfl)

/-! ### C8: files missing a mandatory column are skipped, not fatal -/

/-- Claim C8: a fetched file lacking the mandatory `Date` or `Heure` column
contributes no batch, no row of the ingested batches carries its name, and
the run still completes (provided the prior snapshot is not the degenerate
column-less frame, the only failure source of the merge). -/
theorem claim_C8 (env : Env) (disk : Disk) (f : RemoteFile) (fr : Frame)
    (hf : f ∈ csvsOf env)
    (hdl : env.download f.downloadUrl = some fr)
    (hmiss : fr.hasDate = false ∨ fr.hasHeure = false)
    (hnd : ((csvsOf env).map strippedName).Nodup)
    (hok : disk.cache ≠ some CacheFrame.noCols) :
    batchOpt env f = none ∧
    (∀ r ∈ (newBatches env (load_index disk)).flatten,
      r.source_file ≠ strippedName f) ∧
    (fetch_data env disk).isSome = true := by
  have hbo : batchOpt env f = none := by
    have hcols : (fr.hasDate && fr.hasHeure) = false := by
      rcases hmiss with h | h <;> rw [h] <;> simp
    unfold batchOpt
    simp only [hdl, hcols]
    rfl
  refine ⟨hbo, ?_, ?_⟩
  · intro r hr hcontra
    obtain ⟨b, hb, hrb⟩ := List.mem_flatten.mp hr
    obtain ⟨g, hg, hgb⟩ := List.mem_filterMap.mp hb
    have hgsrc := batchOpt_source hgb r hrb
    have hgf : g = f := by
      have hgcsv : g ∈ csvsOf env := (List.mem_filter.mp hg).1
      refine List.inj_on_of_nodup_map hnd hgcsv hf ?_
      rw [← hgsrc]
      exact hcontra
    rw [hgf, hbo] at hgb
    cases hgb
  · unfold fetch_data
    cases hcache : disk.cache with
    | none => rw [mergeCache_absent]; cases (newBatches env (load_index disk)).isEmpty <;> rfl
    | some cf =>
        cases cf with
        | noCols => exact absurd hcache hok
        | tagged base => rw [mergeCache_tagged]; rfl

/-- Witness file for C8: parses but lacks the `Date` column. -/
def c8File : RemoteFile := RemoteFile.mk "c.csv" 1 "t" "u"

/-- Download table for the C8 witness. -/
def c8Dl : String → Option Frame :=
  fun u => if u = "u" then some (Frame.mk false true ["z"]) else none

/-- Environment for the C8 witness. -/
def c8Env : Env := Env.mk [Page.ok [c8File] false] c8Dl

/-- Witness for C8 at a concrete input. -/
theorem claim_C8_witness :
    batchOpt c8Env c8File = none ∧
    (∀ r ∈ (newBatches c8Env (load_index (Disk.mk none none))).flatten,
      r.source_file ≠ strippedName c8File) ∧
    (fetch_data c8Env (Disk.mk none none)).isSome = true :=
  claim_C8 c8Env (Disk.mk none none) c8File (Frame.mk false true ["z"])
    (by decide) (by decide) (Or.inl rfl) (by decide) (by decide)

/-! ### C3: the forced-refresh set holds the latest-dated file per machine -/

theorem dateLt_irrefl (d : PDate) : dateLt d d = false := by
  rw [Bool.eq_false_iff]
  intro hc
  simp only [dateLt, Bool.or_eq_true, Bool.and_eq_true, decide_eq_true_eq]
    at hc
  omega

theorem dateLt_asymm {a b : PDate} (h : dateLt a b = true) :
    dateLt b a = false := by
  rw [Bool.eq_false_iff]
  intro hc
  simp only [dateLt, Bool.or_eq_true, Bool.and_eq_true, decide_eq_true_eq]
    at h hc
  omega

theorem latestAux_cons_none {g : RemoteFile} {rest : List RemoteFile}
    {acc : List (String × PDate × RemoteFile)}
    (h : extractMachineDate g = none) :
    latestAux (g :: rest) acc = latestAux rest acc := by
  simp only [latestAux, h]

theorem latestAux_cons_some {g : RemoteFile} {rest : List RemoteFile}
    {acc : List (String × PDate × RemoteFile)} {machine : String} {dt : PDate}
    (h : extractMachineDate g = some (machine, dt)) :
    latestAux (g :: rest) acc = latestAux rest (updLatest acc machine dt g) := by
  simp only [latestAux, h]

theorem updLatest_absent {latest : List (String × PDate × RemoteFile)}
    {machine : String} {dt : PDate} {f : RemoteFile}
    (h : alookup machine latest = none) :
    updLatest latest machine dt f = latest ++ [(machine, dt, f)] := by
  unfold updLatest
  rw [h]

theorem updLatest_found_lt {latest : List (String × PDate × RemoteFile)}
    {machine : String} {dt dt₀ : PDate} {f g₀ : RemoteFile}
    (h : alookup machine latest = some (dt₀, g₀))
    (hlt : dateLt dt₀ dt = true) :
    updLatest latest machine dt f = latest.map (setKey machine (dt, f)) := by
  unfold updLatest
  rw [h]
  show (if dateLt dt₀ dt = true then latest.map (setKey machine (dt, f))
        else latest) = latest.map (setKey machine (dt, f))
  exact if_pos hlt

theorem updLatest_found_ge {latest : List (String × PDate × RemoteFile)}
    {machine : String} {dt dt₀ : PDate} {f g₀ : RemoteFile}
    (h : alookup machine latest = some (dt₀, g₀))
    (hlt : ¬dateLt dt₀ dt = true) :
    updLatest latest machine dt f = latest := by
  unfold updLatest
  rw [h]
  show (if dateLt dt₀ dt = true then latest.map (setKey machine (dt, f))
        else latest) = latest
  exact if_neg hlt

theorem updLatest_mem {latest : List (String × PDate × RemoteFile)}
    {machine : String} {dt : PDate} {g : RemoteFile}
    {p : String × PDate × RemoteFile}
    (hp : p ∈ updLatest latest machine dt g) :
    p ∈ latest ∨ p = (machine, dt, g) := by
  cases h : alookup machine latest with
  | none =>
      rw [updLatest_absent h] at hp
      rcases List.mem_append.mp hp with h₁ | h₂
      · exact Or.inl h₁
      · exact Or.inr (List.mem_singleton.mp h₂)
  | some pr =>
      obtain ⟨dt₀, g₀⟩ := pr
      by_cases hlt : dateLt dt₀ dt = true
      · rw [updLatest_found_lt h hlt] at hp
        obtain ⟨q, hq, rfl⟩ := List.mem_map.mp hp
        unfold setKey
        by_cases hq1 : q.1 = machine
        · rw [if_pos hq1]
          exact Or.inr rfl
        · rw [if_neg hq1]
          exact Or.inl hq
      · rw [updLatest_found_ge h hlt] at hp
        exact Or.inl hp

theorem updLatest_lookup_ne {latest : List (String × PDate × RemoteFile)}
    {m machine : String} {dt : PDate} {g : RemoteFile}
    (hne : m ≠ machine) :
    alookup m (updLatest latest machine dt g) = alookup m latest := by
  cases h : alookup machine latest with
  | none =>
      rw [updLatest_absent h, alookup_append]
      have hsingle : alookup m [(machine, dt, g)] = none := by
        rw [alookup_cons, if_neg (fun hc => hne hc.symm)]
        rfl
      rw [hsingle, Option.or_none]
  | some pr =>
      obtain ⟨dt₀, g₀⟩ := pr
      by_cases hlt : dateLt dt₀ dt = true
      · rw [updLatest_found_lt h hlt, alookup_map_set_ne _ _ hne]
      · rw [updLatest_found_ge h hlt]

/-- The central induction for `latest_per_machine`: once the accumulator
either still awaits `f` (and every accumulated entry for machine `m` is
strictly older than `d`) or already holds `(d, f)` for `m`, and `f`
strictly dominates every other file of machine `m` in the remaining list,
the final accumulator maps `m` to `(d, f)`. -/
theorem latestAux_lookup (m : String) (d : PDate) (f : RemoteFile)
    (hex : extractMachineDate f = some (m, d)) :
    ∀ (files : List RemoteFile) (acc : List (String × PDate × RemoteFile)),
    (∀ g ∈ files, ∀ d₂ : PDate, extractMachineDate g = some (m, d₂) →
      g = f ∨ dateLt d₂ d = true) →
    ((f ∈ files ∧ ∀ p ∈ acc, p.1 = m → dateLt p.2.1 d = true) ∨
      alookup m acc = some (d, f)) →
    alookup m (latestAux files acc) = some (d, f) := by
  intro files
  induction files with
  | nil =>
      intro acc _ hst
      rcases hst with ⟨hmem, _⟩ | hl
      · exact absurd hmem (List.not_mem_nil f)
      · exact hl
  | cons g rest ih =>
      intro acc hdom hst
      have hdomr : ∀ g₂ ∈ rest, ∀ d₂ : PDate,
          extractMachineDate g₂ = some (m, d₂) →
          g₂ = f ∨ dateLt d₂ d = true :=
        fun g₂ hg₂ d₂ he => hdom g₂ (List.mem_cons_of_mem _ hg₂) d₂ he
      cases hEg : extractMachineDate g with
      | none =>
          rw [latestAux_cons_none hEg]
          apply ih acc hdomr
          rcases hst with ⟨hmem, hacc⟩ | hl
          · left
            refine ⟨?_, hacc⟩
            rcases List.mem_cons.mp hmem with rfl | h₂
            · rw [hex] at hEg
              cases hEg
            · exact h₂
          · exact Or.inr hl
      | some md =>
          obtain ⟨m₂, d₂⟩ := md
          rw [latestAux_cons_some hEg]
          by_cases hm₂ : m₂ = m
          · subst hm₂
            rcases hdom g (List.mem_cons_self _ _) d₂ hEg with rfl | hlt
            · rw [hex] at hEg
              simp only [Option.some.injEq, Prod.mk.injEq] at hEg
              obtain ⟨-, rfl⟩ := hEg
              apply ih _ hdomr
              right
              cases hacc' : alookup m₂ acc with
              | none =>
                  rw [updLatest_absent hacc', alookup_append, hacc',
                    Option.none_or, alookup_cons, if_pos rfl]
              | some pr =>
                  obtain ⟨d₀, g₀⟩ := pr
                  rcases hst with ⟨hmem, hacc⟩ | hl
                  · have hmem₀ : (m₂, d₀, g₀) ∈ acc := alookup_mem hacc'
                    have hlt₀ : dateLt d₀ d = true := hacc _ hmem₀ rfl
                    rw [updLatest_found_lt hacc' hlt₀, alookup_map_set_self,
                      hacc']
                    rfl
                  · have heq : (d, g) = (d₀, g₀) := by
                      have := hl.symm.trans hacc'
                      injection this
                    obtain ⟨rfl, rfl⟩ : d₀ = d ∧ g₀ = g := by
                      simp only [Prod.mk.injEq] at heq
                      exact ⟨heq.1.symm, heq.2.symm⟩
                    rw [updLatest_found_ge hacc'
                      (by rw [dateLt_irrefl]; exact Bool.false_ne_true)]
                    exact hl
            · apply ih _ hdomr
              rcases hst with ⟨hmem, hacc⟩ | hl
              · left
                constructor
                · rcases List.mem_cons.mp hmem with rfl | h₂
                  · rw [hex] at hEg
                    simp only [Option.some.injEq, Prod.mk.injEq] at hEg
                    obtain ⟨-, rfl⟩ := hEg
                    rw [dateLt_irrefl] at hlt
                    cases hlt
                  · exact h₂
                · intro p hp hpm
                  rcases updLatest_mem hp with hpacc | rfl
                  · exact hacc _ hpacc hpm
                  · exact hlt
              · right
                have hnlt : ¬dateLt d d₂ = true := by
                  rw [dateLt_asymm hlt]
                  exact Bool.false_ne_true
                rw [updLatest_found_ge hl hnlt]
                exact hl
          · apply ih _ hdomr
            rcases hst with ⟨hmem, hacc⟩ | hl
            · left
              constructor
              · rcases List.mem_cons.mp hmem with rfl | h₂
                · rw [hex] at hEg
                  simp only [Option.some.injEq, Prod.mk.injEq] at hEg
                  exact absurd hEg.1.symm hm₂
                · exact h₂
              · intro p hp hpm
                rcases updLatest_mem hp with hpacc | rfl
                · exact hacc _ hpacc hpm
                · exact absurd hpm hm₂
            · right
              rw [updLatest_lookup_ne (fun hc => hm₂ hc.symm)]
              exact hl

theorem map_fst_setKey (k : String) (v : β) (l : List (String × β)) :
    (l.map (setKey k v)).map Prod.fst = l.map Prod.fst := by
  induction l with
  | nil => rfl
  | cons p rest ih =>
      obtain ⟨k₂, w⟩ := p
      by_cases h : k₂ = k
      · rw [List.map_cons, setKey_pair, if_pos h, List.map_cons, List.map_cons,
          ih, h]
      · rw [List.map_cons, setKey_pair, if_neg h, List.map_cons, List.map_cons,
          ih]

theorem latestAux_keys_nodup :
    ∀ (files : List RemoteFile) (acc : List (String × PDate × RemoteFile)),
      (acc.map Prod.fst).Nodup → ((latestAux files acc).map Prod.fst).Nodup := by
  intro files
  induction files with
  | nil => intro acc h; exact h
  | cons g rest ih =>
      intro acc h
      cases hEg : extractMachineDate g with
      | none =>
          rw [latestAux_cons_none hEg]
          exact ih acc h
      | some md =>
          obtain ⟨m₂, d₂⟩ := md
          rw [latestAux_cons_some hEg]
          apply ih
          cases hacc : alookup m₂ acc with
          | none =>
              rw [updLatest_absent hacc, List.map_append]
              have hnotin : m₂ ∉ acc.map Prod.fst := by
                intro hc
                obtain ⟨p, hp, hfst⟩ := List.mem_map.mp hc
                exact (alookup_eq_none_iff m₂ acc).mp hacc p hp hfst
              rw [List.nodup_append]
              refine ⟨h, List.nodup_singleton _, ?_⟩
              intro a ha hb
              rw [List.mem_singleton.mp hb] at ha
              exact hnotin ha
          | some pr =>
              obtain ⟨dt₀, g₀⟩ := pr
              by_cases hlt : dateLt dt₀ d₂ = true
              · rw [updLatest_found_lt hacc hlt, map_fst_setKey]
                exact h
              · rw [updLatest_found_ge hacc hlt]
                exact h

theorem alookup_of_mem_nodup {l : List (String × α)} {k : String} {v : α}
    (hnd : (l.map Prod.fst).Nodup) (hmem : (k, v) ∈ l) :
    alookup k l = some v := by
  induction l with
  | nil => cases hmem
  | cons p rest ih =>
      obtain ⟨k₂, w⟩ := p
      rw [List.map_cons, List.nodup_cons] at hnd
      rcases List.mem_cons.mp hmem with heq | h₂
      · obtain ⟨rfl, rfl⟩ : k = k₂ ∧ v = w := by
          simpa using congrArg id heq
        rw [alookup_cons, if_pos rfl]
      · have hk : k₂ ≠ k := by
          intro hc
          subst hc
          exact hnd.1 (List.mem_map.mpr ⟨(k₂, v), h₂, rfl⟩)
        rw [alookup_cons, if_neg hk, ih hnd.2 h₂]

theorem alookup_map_pair (m : String)
    (l : List (String × PDate × RemoteFile)) :
    alookup m (l.map (fun p => (p.1, p.2.2))) =
      (alookup m l).map (fun q => q.2) := by
  induction l with
  | nil => rfl
  | cons p rest ih =>
      obtain ⟨k₂, v⟩ := p
      by_cases h : k₂ = m
      · rw [List.map_cons]
        show alookup m ((k₂, v.2) :: _) = _
        rw [alookup_cons, if_pos h, alookup_cons, if_pos h]
        rfl
      · rw [List.map_cons]
        show alookup m ((k₂, v.2) :: _) = _
        rw [alookup_cons, if_neg h, alookup_cons, if_neg h, ih]

/-- Claim C3: for a machine `m` whose file `f` strictly dominates (by
embedded date) every other file of `m` in the listing, the
latest-per-machine map sends `m` to `f`, and `f` is the only file paired
with `m` in it — the forced-refresh set holds exactly the single file of
each machine with the greatest embedded date. -/
theorem claim_C3 (files : List RemoteFile) (f : RemoteFile) (m : String)
    (d : PDate)
    (hmem : f ∈ files)
    (hex : extractMachineDate f = some (m, d))
    (hdom : ∀ g ∈ files, ∀ d₂ : PDate,
      extractMachineDate g = some (m, d₂) → g = f ∨ dateLt d₂ d = true) :
    alookup m (latest_per_machine files) = some f ∧
    ∀ p ∈ latest_per_machine files, p.1 = m → p.2 = f := by
  have hmain : alookup m (latestAux files []) = some (d, f) :=
    latestAux_lookup m d f hex files [] hdom
      (Or.inl ⟨hmem, by intro p hp; cases hp⟩)
  constructor
  · unfold latest_per_machine
    rw [alookup_map_pair, hmain]
    rfl
  · intro p hp hpm
    obtain ⟨q, hq, rfl⟩ := List.mem_map.mp hp
    have hq1 : q.1 = m := hpm
    have hknd : ((latestAux files []).map Prod.fst).Nodup :=
      latestAux_keys_nodup files [] (by simp)
    have hfound : alookup q.1 (latestAux files []) = some q.2 :=
      alookup_of_mem_nodup hknd (by
        rw [show (q.1, q.2) = q from rfl]
        exact hq)
    rw [hq1, hmain] at hfound
    have hqv : q.2 = (d, f) := by
      injection hfound.symm
    show q.2.2 = f
    rw [hqv]

/-- The older file of the C3 witness scenario. -/
def c3f1 : RemoteFile := RemoteFile.mk "Presse1_2024-01-01.csv" 1 "t1" "u1"

/-- The newer file of the C3 witness scenario. -/
def c3f2 : RemoteFile := RemoteFile.mk "Presse1_2024-01-05.csv" 2 "t2" "u2"

/-- Witness for C3 at the spec's concrete scenario: of the two Presse1
files dated 2024-01-01 and 2024-01-05, only the 2024-01-05 one is selected. -/
theorem claim_C3_witness :
    (alookup "Presse1" (latest_per_machine [c3f1, c3f2]) = some c3f2 ∧
     ∀ p ∈ latest_per_machine [c3f1, c3f2], p.1 = "Presse1" → p.2 = c3f2) ∧
    latest_per_machine [c3f1, c3f2] = [("Presse1", c3f2)] := by
  refine ⟨claim_C3 [c3f1, c3f2] c3f2 "Presse1" (PDate.mk 2024 1 5)
    (by decide) (by decide) ?_, by decide⟩
  intro g hg d₂ he
  rcases List.mem_cons.mp hg with rfl | hg₂
  · have hx : extractMachineDate c3f1 = some ("Presse1", PDate.mk 2024 1 1) :=
      by decide
    rw [hx] at he
    simp only [Option.some.injEq, Prod.mk.injEq] at he
    obtain ⟨-, rfl⟩ := he
    right
    decide
  · rcases List.mem_singleton.mp hg₂ with rfl
    exact Or.inl rfl

/-! ### C7: idempotence of the sync against an unchanged remote -/

theorem filter_flatten_batches (env : Env) (force : List String) :
    ∀ l : List RemoteFile,
      ((l.filterMap (batchOpt env)).flatten).filter
        (fun r => !(memB r.source_file force)) =
      ((l.filter (fun f => !(memB (strippedName f) force))).filterMap
        (batchOpt env)).flatten := by
  intro l
  induction l with
  | nil => rfl
  | cons f rest ih =>
      cases hb : batchOpt env f with
      | none =>
          cases hforced : memB (strippedName f) force with
          | true =>
              simp only [List.filterMap_cons, hb, List.filter_cons, hforced,
                Bool.not_true, Bool.false_eq_true, if_false, ih]
          | false =>
              simp only [List.filterMap_cons, hb, List.filter_cons, hforced,
                Bool.not_false, if_true, List.filterMap_cons, hb, ih]
      | some b =>
          have hsrc := batchOpt_source hb
          cases hforced : memB (strippedName f) force with
          | true =>
              have hbf : b.filter
                  (fun r => !(memB r.source_file force)) = [] :=
                List.filter_eq_nil_iff.mpr (fun r hr => by
                  rw [hsrc r hr, hforced]
                  simp)
              simp only [List.filterMap_cons, hb, List.flatten_cons,
                List.filter_append, hbf, List.filter_cons, hforced,
                Bool.not_true, Bool.false_eq_true, if_false, ih,
                List.nil_append]
          | false =>
              have hbf : b.filter
                  (fun r => !(memB r.source_file force)) = b :=
                List.filter_eq_self.mpr (fun r hr => by
                  rw [hsrc r hr, hforced]
                  simp)
              simp only [List.filterMap_cons, hb, List.flatten_cons,
                List.filter_append, hbf, List.filter_cons, hforced,
                Bool.not_false, if_true, List.filterMap_cons, ih]

theorem perm_split_batches (env : Env) (q : RemoteFile → Bool)
    (l : List RemoteFile) :
    List.Perm
      (((l.filter (fun f => !(q f))).filterMap (batchOpt env)).flatten ++
        ((l.filter q).filterMap (batchOpt env)).flatten)
      ((l.filterMap (batchOpt env)).flatten) := by
  have hperm : List.Perm (l.filter (fun f => !(q f)) ++ l.filter q) l :=
    List.Perm.trans List.perm_append_comm (List.filter_append_perm q l)
  have hjoin : ((l.filter (fun f => !(q f))).filterMap (batchOpt env)).flatten ++
      ((l.filter q).filterMap (batchOpt env)).flatten =
      ((l.filter (fun f => !(q f)) ++ l.filter q).filterMap
        (batchOpt env)).flatten := by
    rw [List.filterMap_append, List.flatten_append]
  rw [hjoin]
  exact (hperm.filterMap (batchOpt env)).flatten

theorem fetchedFiles_newIndex (env : Env)
    (hnd : ((csvsOf env).map strippedName).Nodup) :
    fetchedFiles env (newIndex env) =
      (csvsOf env).filter
        (fun f => memB (strippedName f) (forceNames env)) := by
  unfold fetchedFiles
  apply List.filter_congr
  intro f hf
  rw [changed_newIndex hf hnd, Bool.false_or]

theorem fetched_filter_forced (env : Env) (idx : List (String × String)) :
    (fetchedFiles env idx).filter
      (fun f => memB (strippedName f) (forceNames env)) =
    (csvsOf env).filter
      (fun f => memB (strippedName f) (forceNames env)) := by
  unfold fetchedFiles
  rw [List.filter_filter]
  apply List.filter_congr
  intro f hf
  cases hm : memB (strippedName f) (forceNames env) <;> simp [hm]

theorem merged_filter_perm (env : Env) (idx0 : List (String × String))
    (pre : List CRow)
    (hpre : pre.filter (fun r => !(memB r.source_file (forceNames env))) =
      pre) :
    List.Perm
      ((pre ++
          ((fetchedFiles env idx0).filterMap (batchOpt env)).flatten).filter
          (fun r => !(memB r.source_file (forceNames env))) ++
        (((csvsOf env).filter
          (fun f => memB (strippedName f) (forceNames env))).filterMap
            (batchOpt env)).flatten)
      (pre ++ ((fetchedFiles env idx0).filterMap (batchOpt env)).flatten) := by
  rw [List.filter_append, hpre,
    filter_flatten_batches env (forceNames env) (fetchedFiles env idx0),
    ← fetched_filter_forced env idx0, List.append_assoc]
  exact List.Perm.append_left pre
    (perm_split_batches env
      (fun f => memB (strippedName f) (forceNames env))
      (fetchedFiles env idx0))

/-- Counterexample environment for C7: a successful but empty remote
listing (an unchanged remote with no forced downloads at all). -/
def c7Env : Env := Env.mk [Page.ok [] false] (fun _ => none)

/-- Counterexample for claim C7: starting from a fresh disk, the first sync
against an empty listing succeeds and writes the degenerate column-less
empty snapshot; the second, identical sync then raises (KeyError on
`base["source_file"]`) instead of returning the same dataset — running the
sync twice is not idempotent. -/
theorem claim_C7_counterexample :
    fetch_data c7Env (Disk.mk none none) =
      some (Disk.mk (some []) (some CacheFrame.noCols), CacheFrame.noCols) ∧
    fetch_data c7Env (Disk.mk (some []) (some CacheFrame.noCols)) = none :=
  ⟨rfl, rfl⟩

/-- Claim C7 (amended): when the first run's merged snapshot is a tagged
table (at least one batch was ever ingested or a tagged prior cache
existed) and the stripped CSV names are pairwise distinct, a second run
against the unchanged environment succeeds and returns a dataset with the
same rows up to permutation — in particular the same row count; when the
first run wrote the degenerate column-less empty snapshot instead, the
second run raises. -/
theorem claim_C7 (env : Env) (disk : Disk) (d₁ : Disk) (rows₁ : List CRow)
    (h₁ : fetch_data env disk = some (d₁, CacheFrame.tagged rows₁))
    (hnd : ((csvsOf env).map strippedName).Nodup) :
    ∃ d₂ rows₂, fetch_data env d₁ = some (d₂, CacheFrame.tagged rows₂) ∧
      List.Perm rows₂ rows₁ ∧ rows₂.length = rows₁.length := by
  unfold fetch_data at h₁
  cases hm : mergeCache disk.cache (forceNames env)
      (newBatches env (load_index disk)) with
  | none => rw [hm] at h₁; cases h₁
  | some combined =>
      rw [hm, Option.some.injEq, Prod.mk.injEq] at h₁
      obtain ⟨hd₁, hcomb⟩ := h₁
      subst hcomb
      have hd₁idx : d₁.index = some (newIndex env) := by rw [← hd₁]
      have hd₁cache : d₁.cache = some (CacheFrame.tagged rows₁) := by
        rw [← hd₁]
      have hload : load_index d₁ = newIndex env := by
        unfold load_index
        rw [hd₁idx]
        rfl
      have hbatch2 : newBatches env (load_index d₁) =
          ((csvsOf env).filter
            (fun f => memB (strippedName f) (forceNames env))).filterMap
              (batchOpt env) := by
        unfold newBatches
        rw [hload, fetchedFiles_newIndex env hnd]
      obtain ⟨pre, hpre, hrows⟩ : ∃ pre,
          pre.filter (fun r => !(memB r.source_file (forceNames env))) =
            pre ∧
          rows₁ = pre ++
            ((fetchedFiles env (load_index disk)).filterMap
              (batchOpt env)).flatten := by
        cases hdc : disk.cache with
        | none =>
            rw [hdc, mergeCache_absent, Option.some.injEq] at hm
            cases hE : (newBatches env (load_index disk)).isEmpty with
            | true =>
                rw [hE, if_pos rfl] at hm
                cases hm
            | false =>
                rw [hE, if_neg Bool.false_ne_true] at hm
                injection hm with hm₂
                exact ⟨[], rfl, hm₂.symm⟩
        | some cf =>
            cases cf with
            | noCols => rw [hdc, mergeCache_noCols] at hm; cases hm
            | tagged base =>
                rw [hdc, mergeCache_tagged, Option.some.injEq] at hm
                injection hm with hm₂
                refine ⟨base.filter
                  (fun r => !(memB r.source_file (forceNames env))), ?_,
                  hm₂.symm⟩
                rw [List.filter_filter]
                apply List.filter_congr
                intro a ha
                exact Bool.and_self _
      have hperm : List.Perm
          (rows₁.filter (fun r => !(memB r.source_file (forceNames env))) ++
            (newBatches env (load_index d₁)).flatten) rows₁ := by
        rw [hbatch2]
        rw [hrows]
        exact merged_filter_perm env (load_index disk) pre hpre
      refine ⟨Disk.mk (some (newIndex env))
          (some (CacheFrame.tagged
            (rows₁.filter
              (fun r => !(memB r.source_file (forceNames env))) ++
              (newBatches env (load_index d₁)).flatten))),
        rows₁.filter (fun r => !(memB r.source_file (forceNames env))) ++
          (newBatches env (load_index d₁)).flatten,
        ?_, hperm, hperm.length_eq⟩
      unfold fetch_data
      rw [hd₁cache, mergeCache_tagged]

/-- Witness file for C7: a single forced Presse file. -/
def c7wFile : RemoteFile := RemoteFile.mk "Presse1_2024-01-05.csv" 2 "t2" "u2"

/-- Download table for the C7 witness (content-stable by construction). -/
def c7wDl : String → Option Frame :=
  fun u => if u = "u2" then some (Frame.mk true true ["r"]) else none

/-- Environment for the C7 witness. -/
def c7wEnv : Env := Env.mk [Page.ok [c7wFile] false] c7wDl

/-- Disk state written by the first C7 witness run. -/
def c7wD1 : Disk :=
  Disk.mk (some [("Presse1_2024-01-05.csv", "2_t2")])
    (some (CacheFrame.tagged [CRow.mk "Presse1_2024-01-05.csv" "r"]))

/-- Witness for the amended C7 at a concrete input: after a first
successful run from a fresh disk, the second run yields a permutation of
the same rows. -/
theorem claim_C7_witness :
    ∃ d₂ rows₂, fetch_data c7wEnv c7wD1 = some (d₂, CacheFrame.tagged rows₂) ∧
      List.Perm rows₂ [CRow.mk "Presse1_2024-01-05.csv" "r"] ∧
      rows₂.length = [CRow.mk "Presse1_2024-01-05.csv" "r"].length :=
  claim_C7 c7wEnv (Disk.mk none none) c7wD1
    [CRow.mk "Presse1_2024-01-05.csv" "r"] (by decide) (by decide)
